import Mathlib

/-!
Verification of the `stignore` tool (src/main.go) against its specification.

Strings are modelled as `List Char`; a Go string literal `"…"` appears as
`"…".data`.  Patterns arrive as command-line arguments, so a list of
patterns is a `List (List Char)`.  The two configuration files are modelled
by their contents; the directory walk of `FindParentSyncthingDir` is
modelled over absolute clean paths, one path component per list entry.
-/

namespace Stignore

/-- The whitespace set of Go's `unicode.IsSpace`, as trimmed by
`strings.TrimSpace`: ASCII space characters together with the Unicode
space code points. -/
def isSpaceGo (c : Char) : Bool :=
  c.toNat = 32 || c.toNat = 9 || c.toNat = 10 || c.toNat = 11 ||
  c.toNat = 12 || c.toNat = 13 || c.toNat = 0x85 || c.toNat = 0xA0 ||
  c.toNat = 0x1680 || (0x2000 ≤ c.toNat && c.toNat ≤ 0x200A) ||
  c.toNat = 0x2028 || c.toNat = 0x2029 || c.toNat = 0x202F ||
  c.toNat = 0x205F || c.toNat = 0x3000

/-- Go `strings.TrimSpace`: drop leading and trailing whitespace. -/
def trimSpace (l : List Char) : List Char :=
  ((l.dropWhile isSpaceGo).reverse.dropWhile isSpaceGo).reverse

/-- Go `strings.HasPrefix pre s` (arguments: the candidate prefix, then the
string). -/
def hasPrefixGo : List Char → List Char → Bool
  | [], _ => true
  | _ :: _, [] => false
  | p :: ps, c :: cs => p = c && hasPrefixGo ps cs

/-- Drop leading `' '` characters: what the regex piece `" *"` consumes when
it is matched greedily. -/
def dropSpaces : List Char → List Char
  | ' ' :: rest => dropSpaces rest
  | l => l

/-- Match of the regex tail `" *(.+)$"` against the rest of the line `r`
(Go regexp: `.` matches any character but `'\n'`, `$` is end of text).
`some c` is the text captured by `(.+)`: the match fails exactly when `r`
is empty or contains a newline; when `r` consists of spaces only, `" *"`
backtracks one space and the capture is a single space. -/
def matchRest (r : List Char) : Option (List Char) :=
  if '\n' ∈ r then none
  else if dropSpaces r = [] then (if r = [] then none else some [' '])
  else some (dropSpaces r)

/-- Greedy match of `(?:\(\?.\))*` at the start of the line: the longest run
of four-character flag groups `'(' '?' c ')'` with `c ≠ '\n'`, returned
together with the rest of the line. -/
def takeFlagGroups : List Char → List Char × List Char
  | '(' :: '?' :: c :: ')' :: rest =>
    if c = '\n' then ([], '(' :: '?' :: c :: ')' :: rest)
    else
      let (g, r) := takeFlagGroups rest
      ('(' :: '?' :: c :: ')' :: g, r)
  | l => ([], l)

/-- The flag-group alternative of the `flagsPath` regex, with the
backtracking Go's leftmost-first semantics performs: take the flag groups
greedily; if the rest matches `" *(.+)$"` that is the answer; if the rest is
empty and at least one group was taken, give the last group back to `(.+)`
(the suffix of four characters); otherwise there is no match. -/
def flagFallback (s : List Char) : Option (List Char × List Char) :=
  match matchRest (takeFlagGroups s).2 with
  | some c => some ((takeFlagGroups s).1, c)
  | none =>
    if (takeFlagGroups s).2 = [] ∧ (takeFlagGroups s).1 ≠ [] then
      some ((takeFlagGroups s).1.take ((takeFlagGroups s).1.length - 4),
        (takeFlagGroups s).1.drop ((takeFlagGroups s).1.length - 4))
    else none

/-- The literal token of the include alternative: `"#include "`. -/
def includeDirective : List Char := "#include ".data

/-- The fixed name of the synced secondary file, `".stignore_sync"`. -/
def ignoreSyncF : List Char := ".stignore_sync".data

/-- Go's `flagsPath` regexp
`^((?:(?:#include )|(?:\(\?.\))*)) *(.+)$` applied with
`FindStringSubmatch`: `some (m1, m2)` are the two submatches, `none` means
the line does not match.  The `#include ` alternative is tried first; when
its tail fails, leftmost-first semantics falls back to the (possibly empty)
flag-group alternative. -/
def flagsPath (s : List Char) : Option (List Char × List Char) :=
  if hasPrefixGo includeDirective s then
    match matchRest (s.drop 9) with
    | some c => some (includeDirective, c)
    | none => flagFallback s
  else flagFallback s

example : flagsPath "#include extra.txt".data =
    some (includeDirective, "extra.txt".data) := by decide

example : flagsPath "(?d)**/.git".data =
    some ("(?d)".data, "**/.git".data) := by decide

example : flagsPath "(?d)(?i)x y".data =
    some ("(?d)(?i)".data, "x y".data) := by decide

example : flagsPath "(?d)".data = some ([], "(?d)".data) := by decide

example : flagsPath "#include ".data = some ([], "#include ".data) := by decide

example : flagsPath "#include   ".data = some (includeDirective, [' ']) := by decide

example : flagsPath [] = none := by decide

example : flagsPath "a\nb".data = none := by decide

example : flagsPath "not a valid!!line(?".data =
    some ([], "not a valid!!line(?".data) := by decide

/-- The longest run of non-`'/'` characters at the front of the input and
the rest: one path element, as the copy loop of Go's `path.Clean` consumes
it. -/
def spanElem : List Char → List Char × List Char
  | [] => ([], [])
  | c :: rest =>
    if c = '/' then ([], c :: rest)
    else
      let (el, r) := spanElem rest
      (c :: el, r)

theorem spanElem_snd_length (l : List Char) : (spanElem l).2.length ≤ l.length := by
  induction l with
  | nil => simp [spanElem]
  | cons c rest ih =>
    simp only [spanElem]
    split
    · simp
    · simpa using Nat.le_succ_of_le ih

/-- The `..`-element backtracking of Go's `path.Clean`: with the output held
in reverse, pop one character, then keep popping while the character just
popped is not `'/'` and the output is still longer than the `dotdot` mark. -/
def popDotDot : List Char → Nat → List Char
  | [], _ => []
  | c :: rest, dotdot =>
    if rest.length > dotdot ∧ c ≠ '/' then popDotDot rest dotdot else rest

/-- The main loop of Go's `path.Clean` (which `filepath.Clean` is on Unix),
over the remaining input `inp`, the output so far in reverse order `rout`,
and the `dotdot` backtracking mark.  The four cases are the source's:
a `'/'` is skipped; a `.` element is skipped; a `..` element backtracks the
output (or, unrooted, appends a literal `..`); anything else copies one
path element, preceded by `'/'` when the output is not at its start.  Every
iteration consumes at least one input character, so the `fuel` counter —
started at the input's length by `cleanGo` — never runs out; it only makes
the recursion structural. -/
def cleanLoop (rooted : Bool) : Nat → List Char → List Char → Nat → List Char
  | _, [], rout, _ => rout
  | 0, _ :: _, rout, _ => rout
  | fuel + 1, c :: rest, rout, dotdot =>
    if c = '/' then cleanLoop rooted fuel rest rout dotdot
    else if c = '.' ∧ (rest = [] ∨ rest.head? = some '/') then
      cleanLoop rooted fuel rest rout dotdot
    else if c = '.' ∧ rest.head? = some '.' ∧
        (rest.tail = [] ∨ rest.tail.head? = some '/') then
      if rout.length > dotdot then
        cleanLoop rooted fuel rest.tail (popDotDot rout dotdot) dotdot
      else if !rooted then
        let rout' := ['.', '.'] ++ (if rout.length > 0 then '/' :: rout else rout)
        cleanLoop rooted fuel rest.tail rout' rout'.length
      else cleanLoop rooted fuel rest.tail rout dotdot
    else
      let q := spanElem rest
      let sep : List Char :=
        if (rooted ∧ rout.length ≠ 1) ∨ (!rooted ∧ rout.length ≠ 0) then ['/'] else []
      cleanLoop rooted fuel q.2 ((c :: q.1).reverse ++ sep ++ rout) dotdot

/-- Go `path.Clean`: empty input is `"."`; a rooted path starts the output
at `"/"` with the mark at 1; an output left empty becomes `"."`. -/
def cleanGo (path : List Char) : List Char :=
  match path with
  | [] => ['.']
  | c :: rest =>
    if c = '/' then
      let out := cleanLoop true rest.length rest ['/'] 1
      if out.length = 0 then ['.'] else out.reverse
    else
      let out := cleanLoop false (c :: rest).length (c :: rest) [] 0
      if out.length = 0 then ['.'] else out.reverse

/-- Go `filepath.Join` of two elements: empty elements are dropped, the
rest are joined with `'/'` and the result is cleaned; all empty gives the
empty string. -/
def filepathJoin (a b : List Char) : List Char :=
  if a = [] then (if b = [] then [] else cleanGo b)
  else cleanGo (a ++ '/' :: b)

example : cleanGo "/some/path/**/.git".data = "/some/path/**/.git".data := by decide

example : cleanGo "a//b/./c/..".data = "a/b".data := by decide

example : cleanGo "/..".data = "/".data := by decide

example : cleanGo "../../a".data = "../../a".data := by decide

example : filepathJoin "/some/path".data "**/.git".data =
    "/some/path/**/.git".data := by decide

example : filepathJoin [] "foo".data = "foo".data := by decide

/-- Go `EndsWithNewLine`: the last byte of the file is `'\n'`.  On an empty
file the `Seek(-1, SEEK_END)` fails, the read returns nothing and the zero
byte compares unequal to `'\n'`, so the empty file counts as not ending in
a newline. -/
def EndsWithNewLine (content : List Char) : Bool :=
  content.getLast? = some '\n'

/-- Go `Append f toAppend` as a function of the file content: seek to the
end, write a `'\n'` unless the file already ends with one, then write every
string of `toAppend` back to back, then one final `'\n'`. -/
def Append (content : List Char) (toAppend : List (List Char)) : List Char :=
  content ++ (if EndsWithNewLine content then [] else ['\n']) ++
    toAppend.flatten ++ ['\n']

/-- Go `Prompt` over the list of lines the user enters (stream exhaustion
behaves as Go's `EOF`, which the source treats as an empty answer): a
trimmed answer of at most one character returns `true`; otherwise the first
character decides `y`/`Y` → `true`, `n`/`N` → `false`, and anything else
repeats the prompt on the next line.  (`len(text)` and `text[0]` in the
source are byte operations; the model counts characters, which coincides
on the ASCII replies the prompt distinguishes.) -/
def Prompt : List (List Char) → Bool
  | [] => true
  | t :: rest =>
    let text := trimSpace t
    if text.length ≤ 1 then true
    else
      match text with
      | 'y' :: _ => true
      | 'Y' :: _ => true
      | 'n' :: _ => false
      | 'N' :: _ => false
      | _ => Prompt rest

/-- Split a file's content at `'\n'`: exactly the sequence of lines the
scan loop of `WriteToSynced` reads with `ReadString('\n')` (each without
its delimiter, which `TrimSpace` removes anyway; a trailing newline yields
a final empty line, matching the final read at `EOF`). -/
def splitNl : List Char → List (List Char)
  | [] => [[]]
  | c :: rest =>
    if c = '\n' then [] :: splitNl rest
    else
      match splitNl rest with
      | [] => [[c]]
      | l :: ls => (c :: l) :: ls

/-- One line of the scan loop of `WriteToSynced`: after trimming, the line
is an inclusion directive when it is not a `//` comment and the regex
splits it into exactly `"#include "` and `".stignore_sync"`.  Lines that
fail the regex are skipped. -/
def lineIsInclude (line : List Char) : Bool :=
  let t := trimSpace line
  if hasPrefixGo "//".data t then false
  else
    match flagsPath t with
    | none => false
    | some (m1, m2) => m1 = includeDirective ∧ m2 = ignoreSyncF

/-- The scan loop of `WriteToSynced`: `isIncluded` is set when some line of
the primary file is the inclusion directive (the source breaks at the first
such line; the resulting boolean is the same). -/
def scanIncluded (content : List Char) : Bool :=
  (splitNl content).any lineIsInclude

/-- The durable state of one invocation: the contents of the primary file
`.stignore` and of the secondary file `.stignore_sync` in the syncthing
root, and whether the secondary exists as a regular file (what
`os.Stat(...) == nil && !IsDir()` tests in `do`).  A missing file reads as
empty content, matching the `O_CREATE` opens. -/
structure FS where
  primary : List Char
  secondary : List Char
  secondaryIsFile : Bool
deriving DecidableEq, Repr

/-- The line `"#include .stignore_sync\n"` that `WriteToSynced` writes into
the primary file to establish the link. -/
def includeLine : List Char := includeDirective ++ ignoreSyncF ++ ['\n']

/-- Go `WriteToSynced stDir shouldPrompt` as a state transformer on the two
file contents, with `input` the lines available on standard input: scan the
primary file for the inclusion directive; when it is present, or prompting
is suppressed, or the user confirms, append the patterns to the secondary
file and—when the directive was absent—write the directive at the end of
the primary file (preceded by `'\n'` unless the primary already ends with
one); when the user declines, append the patterns to the primary file
instead. -/
def WriteToSynced (fs : FS) (pats : List (List Char)) (shouldPrompt : Bool)
    (input : List (List Char)) : FS :=
  let isIncluded := scanIncluded fs.primary
  if isIncluded || !shouldPrompt || Prompt input then
    let fs1 : FS := { fs with secondary := Append fs.secondary pats,
                              secondaryIsFile := true }
    if !isIncluded then
      { fs1 with primary := fs.primary ++
          (if EndsWithNewLine fs.primary then [] else ['\n']) ++ includeLine }
    else fs1
  else
    { fs with primary := Append fs.primary pats }

/-- The already-parsed command line of `argsS`: the `--local`, `--synced`
and `--absolute` flags and the positional patterns. -/
structure Args where
  localF : Bool
  syncedF : Bool
  absolute : Bool
  patterns : List (List Char)
deriving DecidableEq, Repr

/-- The failures `do` reports before any file is written: the working
directory is in no syncthing folder, or a pattern fails classification
(the error message names the offending, already trimmed pattern). -/
inductive DoErr where
  | notInSyncthing : DoErr
  | incorrectPattern : List Char → DoErr
deriving DecidableEq, Repr

/-- One iteration of the rewrite loop of `do` on a single pattern: trim it;
keep a `//` comment as trimmed; fail (`none`) when the regex does not
match; keep the trimmed line when the path capture is empty; otherwise
prepend the relative path to the path capture with `filepath.Join`, keeping
the matched prefix. -/
def rewritePattern (relPath p : List Char) : Option (List Char) :=
  let t := trimSpace p
  if hasPrefixGo "//".data t then some t
  else
    match flagsPath t with
    | none => none
    | some (m1, m2) =>
      if m2 = [] then some t else some (m1 ++ filepathJoin relPath m2)

/-- The whole rewrite loop of `do`: rewrite every pattern in order, failing
with the first (trimmed) pattern the regex rejects. -/
def rewriteAll (relPath : List Char) : List (List Char) →
    Except (List Char) (List (List Char))
  | [] => .ok []
  | p :: rest =>
    match rewritePattern relPath p with
    | none => .error (trimSpace p)
    | some q => (rewriteAll relPath rest).map (q :: ·)

/-- Go `do` as a function of the root search's outcome (`root` is
`some relPath` when `FindParentSyncthingDir` found a syncthing folder, with
the relative path from it to the working directory), the parsed arguments,
the file state and the prompt input.  The result pairs the final file state
with the reported error, if any; every error is returned before any file
is modified, exactly as in the source, so the error cases carry the input
state unchanged.  The target selection mirrors the source: with neither
`--local` nor `--synced`, a secondary that exists as a regular file selects
the synced target and arms the prompt, otherwise the local target is
selected; then the `switch` tries `Synced` first. -/
def doModel (root : Option (List Char)) (a : Args) (fs : FS)
    (input : List (List Char)) : FS × Option DoErr :=
  match root with
  | none => (fs, some .notInSyncthing)
  | some relPath =>
    match (if a.absolute then .ok a.patterns else rewriteAll relPath a.patterns) with
    | .error t => (fs, some (.incorrectPattern t))
    | .ok pats =>
      let auto := !(a.localF || a.syncedF)
      let synced := a.syncedF || (auto && fs.secondaryIsFile)
      let localF := a.localF || (auto && !fs.secondaryIsFile)
      let shouldPrompt := auto && fs.secondaryIsFile
      if synced then (WriteToSynced fs pats shouldPrompt input, none)
      else if localF then ({ fs with primary := Append fs.primary pats }, none)
      else (fs, none)

example : Append "x\n".data ["foo".data, "bar".data] = "x\nfoobar\n".data := by
  decide

example : Append [] ["a".data] = "\na\n".data := by decide

example : Prompt [['n']] = true := by decide

example : Prompt ["no".data] = false := by decide

example : Prompt ["zz".data, "Nope".data] = false := by decide

example : scanIncluded "// c\n#include .stignore_sync\nfoo\n".data = true := by
  decide

example : scanIncluded "//#include .stignore_sync\nfoo".data = false := by decide

/-- An absolute clean path as its list of components: `[]` is `"/"`, and
`["a", "b"]` is `"/a/b"`.  `filepath.Dir` on such a path is `dropLast`,
and the loop guard `cur != "/"` is `cur ≠ []` (`os.Getwd` returns an
absolute clean path, so the guard `cur != "."` never fires). -/
abbrev DirPath := List (List Char)

/-- The loop of Go `FindParentSyncthingDir`, walking from `cur` upward.
`stat cur` models `os.Stat(filepath.Join(cur, ".stfolder"))`: `none` when
the stat fails, `some b` when the entry exists with `IsDir() = b`.  The
loop breaks at the first directory whose `.stfolder` entry is a directory
(`some true`); a failing stat or a non-directory entry walks on; the
filesystem root `"/"` itself is never examined, ending the walk. -/
def findRoot (stat : DirPath → Option Bool) (cur : DirPath) : Option DirPath :=
  if h : cur = [] then none
  else if stat cur = some true then some cur
  else findRoot stat cur.dropLast
termination_by cur.length
decreasing_by
  have : cur.length ≠ 0 := fun hl => h (List.eq_nil_of_length_eq_zero hl)
  simp only [List.length_dropLast]
  omega

/-- The relative-offset string `cwd[len(cur):]`: the components of the
working directory below the root, each preceded by `'/'`; empty when the
working directory is the root itself. -/
def renderOffset (comps : DirPath) : List Char :=
  (comps.map (fun c => '/' :: c)).flatten

/-- Go `FindParentSyncthingDir`: the first ancestor (the working directory
included, `"/"` excluded) whose `.stfolder` entry is a directory, together
with the byte-slice offset `cwd[len(stDir):]`; `none` when the walk
reaches `"/"` without a hit (the source returns `("", "")`, which `do`
treats as failure). -/
def FindParentSyncthingDir (stat : DirPath → Option Bool) (cwd : DirPath) :
    Option (DirPath × List Char) :=
  match findRoot stat cwd with
  | none => none
  | some r => some (r, renderOffset (cwd.drop r.length))

theorem takeFlagGroups_nil : takeFlagGroups [] = ([], []) := rfl

theorem dropSpaces_nil : dropSpaces [] = [] := rfl

theorem takeFlagGroups_append (l : List Char) :
    (takeFlagGroups l).1 ++ (takeFlagGroups l).2 = l := by
  induction l using takeFlagGroups.induct <;> simp_all [takeFlagGroups, ne_comm]

theorem takeFlagGroups_no_newline (l : List Char) : '\n' ∉ (takeFlagGroups l).1 := by
  induction l using takeFlagGroups.induct <;> simp_all [takeFlagGroups, ne_comm]

theorem takeFlagGroups_mod4 (l : List Char) : (takeFlagGroups l).1.length % 4 = 0 := by
  induction l using takeFlagGroups.induct <;>
    simp_all [takeFlagGroups, ne_comm, Nat.add_mod]

theorem matchRest_eq_none_iff (r : List Char) :
    matchRest r = none ↔ r = [] ∨ '\n' ∈ r := by
  unfold matchRest
  by_cases h1 : '\n' ∈ r
  · simp [h1]
  · by_cases h2 : dropSpaces r = []
    · by_cases h3 : r = [] <;> simp [h1, h2, h3, dropSpaces_nil]
    · have h3 : r ≠ [] := by
        intro h
        rw [h, dropSpaces_nil] at h2
        exact h2 rfl
      simp [h1, h2, h3]

theorem matchRest_ne_nil {r c : List Char} (h : matchRest r = some c) : c ≠ [] := by
  unfold matchRest at h
  by_cases h1 : '\n' ∈ r
  · simp [h1] at h
  · by_cases h2 : dropSpaces r = []
    · by_cases h3 : r = []
      · simp [h1, h2, h3, dropSpaces_nil] at h
      · simp [h1, h2, h3] at h
        rw [← h]
        simp
    · simp [h1, h2] at h
      rw [← h]
      exact h2

theorem hasPrefixGo_eq_append {p s : List Char} (h : hasPrefixGo p s = true) :
    s = p ++ s.drop p.length := by
  induction p generalizing s with
  | nil => simp
  | cons a ps ih =>
    cases s with
    | nil => simp [hasPrefixGo] at h
    | cons b bs =>
      simp only [hasPrefixGo, Bool.and_eq_true, decide_eq_true_eq] at h
      obtain ⟨h1, h2⟩ := h
      simp [h1, List.drop_succ_cons, ← ih h2]

theorem flagFallback_eq_none_iff (s : List Char) :
    flagFallback s = none ↔ s = [] ∨ '\n' ∈ s := by
  have hap := takeFlagGroups_append s
  have hnl := takeFlagGroups_no_newline s
  unfold flagFallback
  cases hmr : matchRest (takeFlagGroups s).2 with
  | some c =>
    have hne : ¬((takeFlagGroups s).2 = [] ∨ '\n' ∈ (takeFlagGroups s).2) :=
      (matchRest_eq_none_iff (takeFlagGroups s).2).not.mp (by simp [hmr])
    rcases not_or.mp hne with ⟨hr1, hr2⟩
    simp only [reduceCtorEq, false_iff]
    refine not_or.mpr ⟨?_, ?_⟩
    · intro hs
      exact hr1 (List.append_eq_nil.mp (hap.trans hs)).2
    · rw [← hap]
      simp [hnl, hr2]
  | none =>
    rcases (matchRest_eq_none_iff _).mp hmr with hr | hr
    · by_cases hg : (takeFlagGroups s).1 = []
      · have hs : s = [] := by rw [← hap, hr, hg]; rfl
        simp [hr, hg, hs, takeFlagGroups_nil]
      · have hs : s = (takeFlagGroups s).1 := by
          conv_lhs => rw [← hap, hr]
          simp
        simp only [hr, hg, ne_eq, not_false_iff, and_true, if_true, reduceCtorEq,
          false_iff]
        refine not_or.mpr ⟨?_, ?_⟩
        · intro h
          exact hg (hs.symm.trans h)
        · rw [hs]
          exact hnl
    · have hrne : (takeFlagGroups s).2 ≠ [] := by
        intro h
        rw [h] at hr
        simp at hr
      have hcs : '\n' ∈ s := by
        rw [← hap]
        exact List.mem_append_right _ hr
      simp [hrne, hcs]

theorem includeDirective_length : includeDirective.length = 9 := by decide

theorem includeDirective_no_newline : '\n' ∉ includeDirective := by decide

theorem flagsPath_eq_none_iff (s : List Char) :
    flagsPath s = none ↔ s = [] ∨ '\n' ∈ s := by
  unfold flagsPath
  by_cases hpre : hasPrefixGo includeDirective s = true
  · rw [if_pos hpre]
    have hs := hasPrefixGo_eq_append hpre
    rw [includeDirective_length] at hs
    cases hmr : matchRest (s.drop 9) with
    | some c =>
      have hne : ¬(s.drop 9 = [] ∨ '\n' ∈ s.drop 9) :=
        (matchRest_eq_none_iff (s.drop 9)).not.mp (by simp [hmr])
      rcases not_or.mp hne with ⟨hr1, hr2⟩
      simp only [reduceCtorEq, false_iff]
      refine not_or.mpr ⟨?_, ?_⟩
      · intro h
        rw [h] at hs
        exact absurd hs.symm (by decide)
      · rw [hs]
        simp only [List.mem_append]
        exact fun hmem => hmem.elim (fun hl => includeDirective_no_newline hl) hr2
    | none => exact flagFallback_eq_none_iff s
  · rw [if_neg hpre]
    exact flagFallback_eq_none_iff s

theorem flagsPath_snd_ne_nil {s m1 m2 : List Char}
    (h : flagsPath s = some (m1, m2)) : m2 ≠ [] := by
  have hfb : flagFallback s = some (m1, m2) → m2 ≠ [] := by
    intro hf
    unfold flagFallback at hf
    cases hmr : matchRest (takeFlagGroups s).2 with
    | some c =>
      rw [hmr] at hf
      have := matchRest_ne_nil hmr
      simp_all
    | none =>
      rw [hmr] at hf
      split_ifs at hf with hcond
      · have hm4 := takeFlagGroups_mod4 s
        have hgne : (takeFlagGroups s).1 ≠ [] := hcond.2
        have hgpos : 0 < (takeFlagGroups s).1.length := List.length_pos.mpr hgne
        have hlen : 4 ≤ (takeFlagGroups s).1.length := by omega
        have hm2 : m2.length = 4 := by
          simp only [Option.some.injEq, Prod.mk.injEq] at hf
          rw [← hf.2, List.length_drop]
          omega
        intro hnil
        rw [hnil] at hm2
        simp at hm2
  unfold flagsPath at h
  by_cases hpre : hasPrefixGo includeDirective s = true
  · rw [if_pos hpre] at h
    cases hmr : matchRest (s.drop 9) with
    | some c =>
      rw [hmr] at h
      have := matchRest_ne_nil hmr
      simp_all
    | none =>
      rw [hmr] at h
      exact hfb h
  · rw [if_neg hpre] at h
    exact hfb h

/-- C9: for every caller-supplied pattern whose whitespace-trimmed form is
non-empty, contains no newline and does not begin with `//`, the
classification regex matches with a non-empty path capture; classification
fails only for a line that is empty or contains a newline; and a match
never has an empty path capture, so the prefix-only skip of `do` cannot
trigger. -/
theorem C9_classification_total :
    (∀ p : List Char, trimSpace p ≠ [] → '\n' ∉ trimSpace p →
      hasPrefixGo "//".data (trimSpace p) = false →
      ∃ m1 m2, flagsPath (trimSpace p) = some (m1, m2) ∧ m2 ≠ []) ∧
    (∀ q : List Char, flagsPath q = none → q = [] ∨ '\n' ∈ q) ∧
    (∀ q m1 m2 : List Char, flagsPath q = some (m1, m2) → m2 ≠ []) := by
  refine ⟨?_, ?_, ?_⟩
  · intro p hne hnl _hcm
    cases hfp : flagsPath (trimSpace p) with
    | none =>
      rcases (flagsPath_eq_none_iff _).mp hfp with h | h
      · exact absurd h hne
      · exact absurd h hnl
    | some m =>
      obtain ⟨m1, m2⟩ := m
      exact ⟨m1, m2, rfl, flagsPath_snd_ne_nil hfp⟩
  · intro q h
    exact (flagsPath_eq_none_iff q).mp h
  · intro q m1 m2 h
    exact flagsPath_snd_ne_nil h

theorem C9_classification_total_witness :
    ∃ m1 m2, flagsPath (trimSpace "ba/*.png".data) = some (m1, m2) ∧ m2 ≠ [] :=
  C9_classification_total.1 "ba/*.png".data (by decide) (by decide) (by decide)

theorem rewriteAll_error_of_mem (relPath : List Char) {l : List (List Char)}
    (h : ∃ p ∈ l, hasPrefixGo "//".data (trimSpace p) = false ∧
      flagsPath (trimSpace p) = none) :
    ∃ q, rewriteAll relPath l = .error q := by
  induction l with
  | nil => simp at h
  | cons p rest ih =>
    rcases h with ⟨x, hx, hcm, hfp⟩
    rcases List.mem_cons.mp hx with rfl | hxr
    · refine ⟨trimSpace x, ?_⟩
      unfold rewriteAll rewritePattern
      simp [hcm, hfp]
    · cases hrw : rewritePattern relPath p with
      | none => exact ⟨trimSpace p, by simp [rewriteAll, hrw]⟩
      | some q' =>
        rcases ih ⟨x, hxr, hcm, hfp⟩ with ⟨q, hq⟩
        exact ⟨q, by simp [rewriteAll, hrw, hq, Except.map]⟩

/-- C5: in non-absolute mode, a pattern list containing a pattern on which
classification fails makes `do` return the malformed-pattern error with
the file state unchanged: no file is opened for writing or mutated. -/
theorem C5_malformed_aborts_before_write (relPath : List Char) (a : Args) (fs : FS)
    (input : List (List Char)) (habs : a.absolute = false)
    (hbad : ∃ p ∈ a.patterns, hasPrefixGo "//".data (trimSpace p) = false ∧
      flagsPath (trimSpace p) = none) :
    ∃ q, doModel (some relPath) a fs input = (fs, some (.incorrectPattern q)) := by
  rcases rewriteAll_error_of_mem relPath hbad with ⟨q, hq⟩
  refine ⟨q, ?_⟩
  simp [doModel, habs, hq]

theorem C5_malformed_aborts_before_write_witness :
    ∃ q, doModel (some []) ⟨false, false, false, [[]]⟩ ⟨[], [], false⟩ [] =
      (⟨[], [], false⟩, some (.incorrectPattern q)) :=
  C5_malformed_aborts_before_write [] ⟨false, false, false, [[]]⟩ ⟨[], [], false⟩ []
    rfl ⟨[], by decide, by decide, by decide⟩

/-- C7: for every input line not beginning with `//` (after trimming) that
the directive grammar matches, the rewrite keeps the matched
flag-group/include prefix exactly and replaces the trailing path with the
structural join of the offset and that path — a pure function of the
pattern and the offset; in particular `(?d)**/.git` with offset
`/some/path` becomes `(?d)/some/path/**/.git` and `#include extra.txt`
becomes `#include /some/path/extra.txt`. -/
theorem C7_rewrite_preserves_prefixes :
    (∀ p off m1 m2 : List Char, hasPrefixGo "//".data (trimSpace p) = false →
      flagsPath (trimSpace p) = some (m1, m2) →
      rewritePattern off p = some (m1 ++ filepathJoin off m2)) ∧
    rewritePattern "/some/path".data "(?d)**/.git".data =
      some "(?d)/some/path/**/.git".data ∧
    rewritePattern "/some/path".data "#include extra.txt".data =
      some "#include /some/path/extra.txt".data := by
  refine ⟨?_, by decide, by decide⟩
  intro p off m1 m2 hcm hfp
  have hm2 := flagsPath_snd_ne_nil hfp
  unfold rewritePattern
  simp [hcm, hfp, hm2]

theorem C7_rewrite_preserves_prefixes_witness :
    rewritePattern "/some/path".data "(?d)**/.git".data =
      some ("(?d)".data ++ filepathJoin "/some/path".data "**/.git".data) :=
  C7_rewrite_preserves_prefixes.1 "(?d)**/.git".data "/some/path".data
    "(?d)".data "**/.git".data (by decide) (by decide)

/-- C1 (failing input): appending the two patterns `foo` and `bar` to a file
ending in a newline writes the single line `foobar`, not one line per
pattern — `Append` writes the patterns back to back with no separating
newline, so the claimed one-line-per-pattern shape is refuted by the code. -/
theorem C1_append_concatenates_patterns :
    Append "x\n".data ["foo".data, "bar".data] = "x\nfoobar\n".data ∧
    Append "x\n".data ["foo".data, "bar".data] ≠ "x\nfoo\nbar\n".data ∧
    Append [] ["a".data] = "\na\n".data := by
  refine ⟨by decide, by decide, by decide⟩

/-- C2 (counterexample): the pattern `not a valid!!line(?` in non-absolute
mode is not rejected: the regex matches it with an empty prefix and the
whole line as path, and `do` appends it to the local file instead of
aborting. -/
theorem C2_invalid_line_accepted :
    flagsPath "not a valid!!line(?".data =
      some ([], "not a valid!!line(?".data) ∧
    doModel (some []) ⟨false, false, false, ["not a valid!!line(?".data]⟩
      ⟨[], [], false⟩ [] =
      (⟨'\n' :: ("not a valid!!line(?".data ++ ['\n']), [], false⟩, none) := by
  refine ⟨by decide, by decide⟩

/-- C2 (amended): classification of a caller-supplied pattern fails only
when its trimmed form is empty or contains a newline; when the single
supplied pattern is such a line, `do` aborts with an error naming the
trimmed line and the file state unchanged; `not a valid!!line(?` is not
such a line — it classifies with an empty prefix and rewrites to itself
under the empty offset. -/
theorem C2_amended_classification_failure_aborts :
    (∀ (relPath : List Char) (a : Args) (fs : FS) (input : List (List Char))
      (p : List Char), a.absolute = false → a.patterns = [p] →
      hasPrefixGo "//".data (trimSpace p) = false → flagsPath (trimSpace p) = none →
      doModel (some relPath) a fs input =
        (fs, some (.incorrectPattern (trimSpace p)))) ∧
    rewritePattern [] "not a valid!!line(?".data =
      some "not a valid!!line(?".data := by
  refine ⟨?_, by decide⟩
  intro relPath a fs input p habs hpat hcm hfp
  have herr : rewriteAll relPath a.patterns = .error (trimSpace p) := by
    rw [hpat]
    unfold rewriteAll rewritePattern
    simp [hcm, hfp]
  simp [doModel, habs, herr]

theorem C2_amended_classification_failure_aborts_witness :
    doModel (some []) ⟨false, false, false, ["a\nb".data]⟩ ⟨[], [], true⟩ [] =
      (⟨[], [], true⟩, some (.incorrectPattern (trimSpace "a\nb".data))) :=
  C2_amended_classification_failure_aborts.1 [] ⟨false, false, false, ["a\nb".data]⟩
    ⟨[], [], true⟩ [] "a\nb".data rfl rfl (by decide) (by decide)

/-- C3 (failing input): the prompt answer `n` — trimmed length 1 — falls
into the `len(text) <= 1` branch and yields `true` (yes), so
`WriteToSynced` appends to the secondary file and inserts the inclusion
directive, where the claim expects the answer `no` and a direct append to
the primary file. -/
theorem C3_single_n_treated_as_yes :
    Prompt [['n']] = true ∧
    Prompt [['x']] = true ∧
    Prompt ["no".data] = false ∧
    WriteToSynced ⟨[], [], true⟩ ["x".data] true [['n']] =
      ⟨'\n' :: includeLine, "\nx\n".data, true⟩ := by
  refine ⟨by decide, by decide, by decide, by decide⟩

/-- C4 (counterexample): with the target forced to the synced file and the
primary file not yet linked, the inclusion directive is inserted into the
primary file — linking logic runs on the forced path, only the prompt is
suppressed. -/
theorem C4_forced_synced_inserts_directive :
    doModel (some []) ⟨false, true, true, ["foo".data]⟩ ⟨[], [], true⟩ [] =
      (⟨'\n' :: includeLine, "\nfoo\n".data, true⟩, none) := by
  decide

/-- C4 (amended): forcing `--local` appends the patterns to the primary
file only, with no directive and no prompt; forcing `--synced` appends to
the secondary file without prompting and, when the primary is not yet
linked, silently inserts the inclusion directive into the primary. -/
theorem C4_amended_forced_target :
    (∀ (relPath : List Char) (a : Args) (fs : FS) (input : List (List Char))
      (pats : List (List Char)), a.localF = true → a.syncedF = false →
      (if a.absolute then Except.ok a.patterns
        else rewriteAll relPath a.patterns) = .ok pats →
      doModel (some relPath) a fs input =
        ({ fs with primary := Append fs.primary pats }, none)) ∧
    (∀ (relPath : List Char) (a : Args) (fs : FS) (input : List (List Char))
      (pats : List (List Char)), a.syncedF = true →
      (if a.absolute then Except.ok a.patterns
        else rewriteAll relPath a.patterns) = .ok pats →
      doModel (some relPath) a fs input = (WriteToSynced fs pats false input, none) ∧
      (WriteToSynced fs pats false input).secondary = Append fs.secondary pats ∧
      (WriteToSynced fs pats false input).primary =
        (if scanIncluded fs.primary then fs.primary
          else fs.primary ++ (if EndsWithNewLine fs.primary then [] else ['\n']) ++
            includeLine)) := by
  constructor
  · intro relPath a fs input pats hl hs hrw
    simp only [doModel]
    rw [hrw]
    simp [hl, hs]
  · intro relPath a fs input pats hs hrw
    refine ⟨?_, ?_, ?_⟩
    · simp only [doModel]
      rw [hrw]
      simp [hs]
    · by_cases hinc : scanIncluded fs.primary <;> simp [WriteToSynced, hinc]
    · by_cases hinc : scanIncluded fs.primary <;> simp [WriteToSynced, hinc]

theorem C4_amended_forced_target_witness :
    doModel (some []) ⟨true, false, true, ["p".data]⟩ ⟨[], [], false⟩ [] =
      (⟨Append [] ["p".data], [], false⟩, none) :=
  C4_amended_forced_target.1 [] ⟨true, false, true, ["p".data]⟩ ⟨[], [], false⟩
    [] ["p".data] rfl rfl rfl

/-- C6 (counterexample): a primary file that already contains the inclusion
directive, next to a missing secondary file, is still appended to
directly: auto-detection looks only at the secondary file's existence, so
the invocation modifies the primary file and leaves the secondary file
empty, against the claim that every invocation on a linked configuration
appends to the secondary only. -/
theorem C6_linked_without_secondary_writes_primary :
    scanIncluded includeLine = true ∧
    doModel (some []) ⟨false, false, true, ["foo".data]⟩ ⟨includeLine, [], false⟩ [] =
      (⟨includeLine ++ "foo\n".data, [], false⟩, none) := by
  refine ⟨by decide, by decide⟩

/-- C6 (amended): when the primary file contains the inclusion directive,
`WriteToSynced` always appends the patterns to the secondary file and
leaves the primary unchanged; at the invocation level the same holds for
every `--absolute` run whose secondary file exists as a regular file and
which does not force `--local` — in particular re-running with identical
patterns is idempotent on the primary file. -/
theorem C6_amended_linked_appends_secondary :
    (∀ (fs : FS) (pats input : List (List Char)) (sp : Bool),
      scanIncluded fs.primary = true →
      WriteToSynced fs pats sp input =
        { fs with secondary := Append fs.secondary pats, secondaryIsFile := true }) ∧
    (∀ (relPath : List Char) (a : Args) (fs : FS) (input : List (List Char)),
      scanIncluded fs.primary = true → fs.secondaryIsFile = true →
      a.localF = false → a.absolute = true →
      doModel (some relPath) a fs input =
        ({ fs with secondary := Append fs.secondary a.patterns,
                   secondaryIsFile := true }, none)) := by
  constructor
  · intro fs pats input sp hinc
    simp [WriteToSynced, hinc]
  · intro relPath a fs input hinc hsec hl habs
    have hW : ∀ sp : Bool, WriteToSynced fs a.patterns sp input =
        { fs with secondary := Append fs.secondary a.patterns,
                  secondaryIsFile := true } := by
      intro sp
      simp [WriteToSynced, hinc]
    cases hsy : a.syncedF <;> simp [doModel, habs, hl, hsy, hsec, hW]

theorem C6_amended_linked_appends_secondary_witness :
    doModel (some []) ⟨false, false, true, ["z".data]⟩ ⟨includeLine, [], true⟩ [] =
      (⟨includeLine, Append [] ["z".data], true⟩, none) :=
  C6_amended_linked_appends_secondary.2 [] ⟨false, false, true, ["z".data]⟩
    ⟨includeLine, [], true⟩ [] (by decide) rfl rfl rfl

theorem pfx_concat_iff {α : Type} {c l : List α} {a : α} :
    (∃ t, c ++ t = l ++ [a]) ↔ c = l ++ [a] ∨ ∃ t, c ++ t = l := by
  constructor
  · rintro ⟨t, ht⟩
    rcases List.eq_nil_or_concat t with rfl | ⟨u, b, rfl⟩
    · exact Or.inl (by simpa using ht)
    · rw [List.concat_eq_append, ← List.append_assoc] at ht
      have h2 := List.append_inj' ht rfl
      simp only [List.cons.injEq, and_true] at h2
      exact Or.inr ⟨u, h2.1⟩
  · rintro (rfl | ⟨t, ht⟩)
    · exact ⟨[], by simp⟩
    · exact ⟨t ++ [a], by rw [← List.append_assoc, ht]⟩

theorem pfx_length_le {α : Type} {c e : List α} (h : ∃ t, c ++ t = e) :
    c.length ≤ e.length := by
  rcases h with ⟨t, rfl⟩
  simp

theorem pfx_eq_of_length_eq {α : Type} {c e : List α} (h : ∃ t, c ++ t = e)
    (hl : c.length = e.length) : c = e := by
  rcases h with ⟨t, rfl⟩
  have : t.length = 0 := by
    have := List.length_append c t
    omega
  rw [List.eq_nil_of_length_eq_zero this, List.append_nil]

theorem pfx_of_pfx_le {α : Type} {c d e : List α} (hc : ∃ t, c ++ t = e)
    (hd : ∃ t, d ++ t = e) (hle : c.length ≤ d.length) : ∃ t, c ++ t = d := by
  rcases hc with ⟨t, ht⟩
  rcases hd with ⟨u, hu⟩
  have hce : e.take c.length = c := by rw [← ht, List.take_left]
  have hde : e.take d.length = d := by rw [← hu, List.take_left]
  have hcd : d.take c.length = c := by
    rw [← hde, List.take_take, Nat.min_eq_left hle, hce]
  have hsplit := List.take_append_drop c.length d
  rw [hcd] at hsplit
  exact ⟨d.drop c.length, hsplit⟩

theorem findRoot_eq_some_iff (stat : DirPath → Option Bool) (cwd r : DirPath) :
    findRoot stat cwd = some r ↔
      r ≠ [] ∧ (∃ t, r ++ t = cwd) ∧ stat r = some true ∧
      ∀ c : DirPath, (∃ t, c ++ t = cwd) → r.length < c.length →
        stat c ≠ some true := by
  induction cwd using List.reverseRecOn with
  | nil =>
    rw [findRoot]
    simp only [reduceCtorEq, false_iff, dif_pos]
    rintro ⟨hne, ⟨t, ht⟩, -⟩
    exact hne (List.append_eq_nil.mp ht).1
  | append_singleton l a ih =>
    rw [findRoot]
    rw [dif_neg (by simp)]
    by_cases hst : stat (l ++ [a]) = some true
    · rw [if_pos hst]
      constructor
      · rintro h
        obtain rfl : r = l ++ [a] := by simpa [eq_comm] using h
        refine ⟨by simp, ⟨[], by simp⟩, hst, ?_⟩
        intro c hc hlen
        have := pfx_length_le hc
        omega
      · rintro ⟨hne, hpfx, hstr, hmax⟩
        by_cases heq : r = l ++ [a]
        · rw [heq]
        · have hlt : r.length < (l ++ [a]).length := by
            have hle := pfx_length_le hpfx
            rcases Nat.lt_or_ge r.length (l ++ [a]).length with h | h
            · exact h
            · exact absurd (pfx_eq_of_length_eq hpfx (by omega)) heq
          exact absurd hst (hmax (l ++ [a]) ⟨[], by simp⟩ hlt)
    · rw [if_neg hst, List.dropLast_concat, ih]
      constructor
      · rintro ⟨hne, hpfx, hstr, hmax⟩
        refine ⟨hne, pfx_concat_iff.mpr (Or.inr hpfx), hstr, ?_⟩
        intro c hc hlen
        rcases pfx_concat_iff.mp hc with rfl | hcl
        · exact hst
        · exact hmax c hcl hlen
      · rintro ⟨hne, hpfx, hstr, hmax⟩
        have hrl : ∃ t, r ++ t = l := by
          rcases pfx_concat_iff.mp hpfx with rfl | h
          · exact absurd hstr hst
          · exact h
        refine ⟨hne, hrl, hstr, ?_⟩
        intro c hcl hlen
        exact hmax c (pfx_concat_iff.mpr (Or.inr hcl)) hlen

theorem findRoot_eq_none_iff (stat : DirPath → Option Bool) (cwd : DirPath) :
    findRoot stat cwd = none ↔
      ∀ c : DirPath, (∃ t, c ++ t = cwd) → c ≠ [] → stat c ≠ some true := by
  induction cwd using List.reverseRecOn with
  | nil =>
    rw [findRoot]
    simp only [dif_pos, true_iff]
    rintro c ⟨t, ht⟩ hne
    exact absurd (List.append_eq_nil.mp ht).1 hne
  | append_singleton l a ih =>
    rw [findRoot]
    rw [dif_neg (by simp)]
    by_cases hst : stat (l ++ [a]) = some true
    · rw [if_pos hst]
      simp only [reduceCtorEq, false_iff, not_forall]
      exact ⟨l ++ [a], ⟨[], by simp⟩, by simp, by simp [hst]⟩
    · rw [if_neg hst, List.dropLast_concat, ih]
      constructor
      · intro h c hc hne
        rcases pfx_concat_iff.mp hc with rfl | hcl
        · exact hst
        · exact h c hcl hne
      · intro h c hcl hne
        exact h c (pfx_concat_iff.mpr (Or.inr hcl)) hne

/-- C10: `FindParentSyncthingDir` succeeds exactly on the longest non-root
ancestor prefix of the working directory whose `.stfolder` entry is a
directory (a `.stfolder` that exists but is not a directory — `stat`
returning `some false` — does not qualify, and `"/"`, the empty component
list, is never examined), and then returns the offset made of the
remaining components, each preceded by a separator; it fails exactly when
no non-root ancestor qualifies. -/
theorem C10_find_parent_characterization (stat : DirPath → Option Bool)
    (cwd : DirPath) :
    (∀ (r : DirPath) (off : List Char),
      FindParentSyncthingDir stat cwd = some (r, off) ↔
        r ≠ [] ∧ (∃ t, r ++ t = cwd) ∧ stat r = some true ∧
        (∀ c : DirPath, (∃ t, c ++ t = cwd) → r.length < c.length →
          stat c ≠ some true) ∧
        off = renderOffset (cwd.drop r.length)) ∧
    (FindParentSyncthingDir stat cwd = none ↔
      ∀ c : DirPath, (∃ t, c ++ t = cwd) → c ≠ [] → stat c ≠ some true) := by
  constructor
  · intro r off
    unfold FindParentSyncthingDir
    cases hfr : findRoot stat cwd with
    | none =>
      simp only [reduceCtorEq, false_iff]
      rintro ⟨hne, hpfx, hstr, -⟩
      exact ((findRoot_eq_none_iff stat cwd).mp hfr) r hpfx hne hstr
    | some r' =>
      obtain ⟨hne, hpfx, hstr, hmax⟩ := (findRoot_eq_some_iff stat cwd r').mp hfr
      simp only [Option.some.injEq, Prod.mk.injEq]
      constructor
      · rintro ⟨rfl, rfl⟩
        exact ⟨hne, hpfx, hstr, hmax, rfl⟩
      · rintro ⟨hne2, hpfx2, hstr2, hmax2, hoff⟩
        have heq : r' = r := by
          rcases Nat.lt_trichotomy r'.length r.length with h | h | h
          · exact absurd hstr2 (hmax r hpfx2 h)
          · have h1 := pfx_of_pfx_le hpfx hpfx2 (Nat.le_of_eq h)
            exact pfx_eq_of_length_eq h1 h
          · exact absurd hstr (hmax2 r' hpfx h)
        exact ⟨heq, by rw [hoff, heq]⟩
  · unfold FindParentSyncthingDir
    cases hfr : findRoot stat cwd with
    | none => exact iff_of_true rfl ((findRoot_eq_none_iff stat cwd).mp hfr)
    | some r' =>
      obtain ⟨hne, hpfx, hstr, -⟩ := (findRoot_eq_some_iff stat cwd r').mp hfr
      simp only [reduceCtorEq, false_iff, not_forall]
      exact ⟨r', hpfx, hne, by simp [hstr]⟩

theorem C10_find_parent_characterization_witness :
    [['a']] ≠ ([] : DirPath) ∧
    (∃ t, [['a']] ++ t = [['a'], ['b']]) ∧
    (fun c : DirPath => if c = [['a']] then some true else none) [['a']] =
      some true ∧
    (∀ c : DirPath, (∃ t, c ++ t = [['a'], ['b']]) → ([['a']] : DirPath).length < c.length →
      (fun c : DirPath => if c = [['a']] then some true else none) c ≠ some true) ∧
    "/b".data = renderOffset (([['a'], ['b']] : DirPath).drop ([['a']] : DirPath).length) :=
  ((C10_find_parent_characterization
      (fun c : DirPath => if c = [['a']] then some true else none)
      [['a'], ['b']]).1 [['a']] "/b".data).mp
    (by
      unfold FindParentSyncthingDir
      have h1 : findRoot (fun c : DirPath => if c = [['a']] then some true else none)
          [['a'], ['b']] = some [['a']] := by
        rw [findRoot]
        simp only [reduceCtorEq, dite_false, if_false]
        rw [findRoot]
        simp
      rw [h1]
      simp [renderOffset])

/-- C8 (counterexample): root location is not monotonic in directory depth
as stated — with a marker directory both at `/a` and at `/a/b`, the
directory `/a` resolves to the root `/a`, but its descendant `/a/b`
resolves to `/a/b`, not to `/a`. -/
theorem C8_nested_root_not_monotonic :
    ¬ (∀ (stat : DirPath → Option Bool) (d e r : DirPath),
        (∃ t, d ++ t = e) → findRoot stat d = some r →
        findRoot stat e = some r) := by
  intro h
  have h1 : findRoot
      (fun c : DirPath => if c = [['a']] ∨ c = [['a'], ['b']] then some true else none)
      [['a']] = some [['a']] := by
    rw [findRoot]
    simp
  have h3 : findRoot
      (fun c : DirPath => if c = [['a']] ∨ c = [['a'], ['b']] then some true else none)
      [['a'], ['b']] = some [['a'], ['b']] := by
    rw [findRoot]
    simp
  have h2 := h _ [['a']] [['a'], ['b']] [['a']] ⟨[['b']], rfl⟩ h1
  rw [h2] at h3
  simp at h3

/-- C8 (amended): if `D` resolves to root `R` and no directory strictly
below `D` on the walk from the descendant `E` (that is, no prefix of `E`
longer than `D`) has a marker directory, then `E` also resolves to `R`. -/
theorem C8_amended_monotonic (stat : DirPath → Option Bool) (d e r : DirPath)
    (hde : ∃ t, d ++ t = e) (hd : findRoot stat d = some r)
    (hnone : ∀ c : DirPath, (∃ t, c ++ t = e) → d.length < c.length →
      stat c ≠ some true) :
    findRoot stat e = some r := by
  obtain ⟨hne, hpfx, hst, hmax⟩ := (findRoot_eq_some_iff stat d r).mp hd
  refine (findRoot_eq_some_iff stat e r).mpr ⟨hne, ?_, hst, ?_⟩
  · rcases hpfx with ⟨t, ht⟩
    rcases hde with ⟨u, hu⟩
    exact ⟨t ++ u, by rw [← List.append_assoc, ht, hu]⟩
  · intro c hc hlen
    rcases Nat.lt_or_ge d.length c.length with hgt | hle
    · exact hnone c hc hgt
    · exact hmax c (pfx_of_pfx_le hc hde hle) hlen

theorem C8_amended_monotonic_witness :
    findRoot (fun c : DirPath => if c = [['a']] then some true else none)
      [['a'], ['b']] = some [['a']] :=
  C8_amended_monotonic (fun c : DirPath => if c = [['a']] then some true else none)
    [['a']] [['a'], ['b']] [['a']] ⟨[['b']], rfl⟩
    (by
      rw [findRoot]
      simp)
    (by
      intro c hc hlen
      have hle := pfx_length_le hc
      have e1 : ([['a']] : DirPath).length = 1 := rfl
      have e2 : ([['a'], ['b']] : DirPath).length = 2 := rfl
      rw [e1] at hlen
      rw [e2] at hle
      have hc2 : c.length = 2 := by omega
      have := pfx_eq_of_length_eq hc (by rw [hc2, e2])
      subst this
      simp)

end Stignore
